import Mathlib

/-!
Verification development for the DataGeany charts frontend core:
the SSE chunk decoder in `src/frontend/features/charts/api/charts.ts`
(`suggestChart` / `planChart`), the plan extraction block in
`src/frontend/features/charts/components/ChartsWorkspace.tsx`
(`handleAddChart`), and the aggregation pipeline
`processDataForChart` in
`src/frontend/features/charts/utils/dataProcessing.ts`.

Strings are modelled as Lean `String`s; character-level list
operations are used so that every definition reduces in the kernel.
JS numbers are modelled as `Option ℚ` with `none` playing the role of
`NaN` (the claims only involve exactly representable values).
-/

namespace DataGeany

/-! ### SSE chunk decoder (charts.ts, suggestChart / planChart)

Both `suggestChart` and `planChart` contain the identical loop:

    const lines = chunk.split('\n');
    for (const line of lines) {
        if (line.startsWith('event: ')) {
            currentEvent = line.slice(7).trim();
        } else if (line.startsWith('data: ')) {
            const data = line.slice(6);
            if (currentEvent === 'content' && data && data !== '[DONE]') {
                onChunk(data);
            }
        }
    }

`currentEvent` is declared outside the read loop, so it persists
across chunks; there is no carry buffer for partial lines. -/

/-- Whitespace test used to model JS `String.prototype.trim`. -/
def isWS (c : Char) : Bool :=
  c == ' ' || c == '\t' || c == '\n' || c == '\r'

/-- Model of JS `trim` on a character list. -/
def trimChars (l : List Char) : List Char :=
  ((l.dropWhile isWS).reverse.dropWhile isWS).reverse

/-- Model of JS `chunk.split('\n')`: split a character list at every
newline; a trailing newline yields a trailing empty segment, exactly
as in JS. -/
def splitLines : List Char → List (List Char)
  | [] => [[]]
  | c :: rest =>
    match splitLines rest with
    | [] => [[]]
    | l :: ls => if c == '\n' then [] :: l :: ls else (c :: l) :: ls

/-- One iteration of the `for (const line of lines)` body from
charts.ts: given the current event name and one line, return the new
event name and the payloads handed to `onChunk` (zero or one). -/
def procLine (ev : String) (line : List Char) : String × List String :=
  if "event: ".toList.isPrefixOf line then
    (String.mk (trimChars (line.drop 7)), [])
  else if "data: ".toList.isPrefixOf line then
    (ev,
      if ev == "content" && String.mk (line.drop 6) != "" &&
          String.mk (line.drop 6) != "[DONE]" then
        [String.mk (line.drop 6)]
      else [])
  else (ev, [])

/-- Process the list of lines of one chunk, threading `currentEvent`. -/
def procLines : String → List (List Char) → String × List String
  | ev, [] => (ev, [])
  | ev, l :: ls =>
    let r1 := procLine ev l
    let r2 := procLines r1.1 ls
    (r2.1, r1.2 ++ r2.2)

/-- Decode one network chunk exactly as the loop body in charts.ts
does: split the chunk on newlines (with no carry from the previous
chunk) and process each resulting line. -/
def decodeChunk (ev : String) (chunk : String) : String × List String :=
  procLines ev (splitLines chunk.toList)

/-- Run the whole read loop of `suggestChart` / `planChart` over a
list of chunks, starting from `currentEvent = ''`. -/
def runDecoder : String → List String → String × List String
  | ev, [] => (ev, [])
  | ev, c :: cs =>
    let r1 := decodeChunk ev c
    let r2 := runDecoder r1.1 cs
    (r2.1, r1.2 ++ r2.2)

/-- The sequence of payload frames emitted to `onChunk` for a given
chunked stream. -/
def decodeStream (chunks : List String) : List String :=
  (runDecoder "" chunks).2

/-- The accumulated content string built by the `onChunk` callbacks in
`handleSuggestChart` / `handleAddChart` (`accumulatedJson += chunk`). -/
def accumulate (chunks : List String) : String :=
  String.join (decodeStream chunks)

/-! ### Numeric cells (dataProcessing.ts)

`processDataForChart` maps `parseFloat` over the y-column.  JS numbers
are modelled as `Option ℚ` with `none` standing for `NaN`; the claims
only involve exactly representable values. -/

/-- JS numbers with `NaN`: `none` models `NaN`. -/
abbrev NF := Option ℚ

/-- Rational addition written through `mkRat` so that it reduces in
the kernel (the `Add ℚ` instance is irreducible); `qAdd_eq_add` below
proves it is ordinary addition. -/
def qAdd (a b : ℚ) : ℚ :=
  mkRat (a.num * (b.den : Int) + b.num * (a.den : Int)) (a.den * b.den)

/-- Division of a rational by a natural number, written through
`mkRat`; `qDivNat_eq_div` below proves it is ordinary division. -/
def qDivNat (q : ℚ) (n : ℕ) : ℚ := mkRat q.num (q.den * n)

/-- Addition with NaN propagation. -/
def nfAdd : NF → NF → NF
  | some a, some b => some (qAdd a b)
  | _, _ => none

/-- Sum of a column; a single NaN poisons the result. -/
def nfSum (l : List NF) : NF := l.foldl nfAdd (some 0)

/-- Division by a (nonzero) count, propagating NaN. -/
def nfDivNat (a : NF) (n : ℕ) : NF := a.map (fun q => qDivNat q n)

/-- Value of a digit run, most significant first. -/
def digitsToNat (ds : List Char) : ℕ :=
  ds.foldl (fun acc c => acc * 10 + (c.toNat - 48)) 0

/-- Exponent part of a JS float literal: optional sign then digits;
a missing digit run contributes exponent `0` (longest-valid-prefix
semantics of `parseFloat`, e.g. `parseFloat("1e") = 1`). -/
def parseExp : List Char → Int
  | '-' :: rest => -(digitsToNat (rest.takeWhile Char.isDigit) : Int)
  | '+' :: rest => (digitsToNat (rest.takeWhile Char.isDigit) : Int)
  | cs => (digitsToNat (cs.takeWhile Char.isDigit) : Int)

/-- Modelled from the spec: the numeric coercion step of §4.4 — the
repository calls the JS builtin `parseFloat`, which is not part of the
source tree.  Leading whitespace is skipped; an optional sign, a
digit run, an optional fraction and an optional exponent form the
longest valid prefix; if no digit is found the result is `NaN`
(`none`).  The value `±m / 10^|fraction|· 10^expo` is assembled with
`mkRat`. -/
def parseFloatJS (s : String) : Option ℚ :=
  let cs0 := s.toList.dropWhile isWS
  let sgn : Int := match cs0 with | '-' :: _ => -1 | _ => 1
  let cs1 : List Char := match cs0 with | '-' :: r => r | '+' :: r => r | _ => cs0
  let ip := cs1.takeWhile Char.isDigit
  let cs2 := cs1.dropWhile Char.isDigit
  let fp : List Char := match cs2 with | '.' :: r => r.takeWhile Char.isDigit | _ => []
  let cs3 : List Char := match cs2 with | '.' :: r => r.dropWhile Char.isDigit | _ => cs2
  if ip.isEmpty && fp.isEmpty then none
  else
    let m : ℕ := digitsToNat (ip ++ fp)
    let scale : ℕ := 10 ^ fp.length
    let expo : Int :=
      match cs3 with
      | 'e' :: r => parseExp r
      | 'E' :: r => parseExp r
      | _ => 0
    if 0 ≤ expo then some (mkRat (sgn * ((m * 10 ^ expo.toNat : ℕ) : Int)) scale)
    else some (mkRat (sgn * (m : Int)) (scale * 10 ^ (-expo).toNat))

lemma qAdd_eq_add (a b : ℚ) : qAdd a b = a + b := by
  unfold qAdd
  have ha : ((a.den : ℚ)) ≠ 0 := by exact_mod_cast a.den_nz
  have hb : ((b.den : ℚ)) ≠ 0 := by exact_mod_cast b.den_nz
  have h1 : a * (a.den : ℚ) = (a.num : ℚ) :=
    (eq_div_iff ha).mp (Rat.num_div_den a).symm
  have h2 : b * (b.den : ℚ) = (b.num : ℚ) :=
    (eq_div_iff hb).mp (Rat.num_div_den b).symm
  rw [Rat.mkRat_eq_div]
  push_cast
  rw [div_eq_iff (mul_ne_zero ha hb)]
  linear_combination (-(b.den : ℚ)) * h1 - (a.den : ℚ) * h2

lemma qDivNat_eq_div (q : ℚ) (n : ℕ) : qDivNat q n = q / (n : ℚ) := by
  unfold qDivNat
  rw [Rat.mkRat_eq_div]
  push_cast
  conv_rhs => rw [← Rat.num_div_den q]
  rw [div_div]

/-! ### Data model (types.ts, dataProcessing.ts) -/

/-- A value extracted from a dataframe column: either a raw string
cell (the group-key column) or a coerced number. -/
inductive Cell where
  | str (s : String)
  | num (v : NF)
deriving DecidableEq

structure Dataset where
  label : String
  data : List Cell
  backgroundColor : String
  borderColor : String
  borderWidth : ℕ
deriving DecidableEq

structure ChartData where
  labels : List String
  datasets : List Dataset
deriving DecidableEq

structure ChartConfig where
  id : String
  title : String
  type : String
  data : ChartData
deriving DecidableEq

structure XAxis where
  column : String
  label : String
deriving DecidableEq

/-- `aggregation` is a `String`, not a closed enum: the plan arrives
through unchecked `JSON.parse`, so any tag can reach the engine. -/
structure YAxis where
  column : String
  aggregation : String
  label : String
deriving DecidableEq

structure ChartPlan where
  type : String
  x : XAxis
  y : YAxis
  top_k : Int
deriving DecidableEq

/-- A CSV-derived table: a header row naming the columns and the data
rows, each aligned with the header. -/
structure Table where
  header : List String
  rows : List (List String)
deriving DecidableEq

/-- Cell of `row` in column `col` (dataframe column access). -/
def cellAt (t : Table) (row : List String) (col : String) : String :=
  match t.header.findIdx? (· == col) with
  | some i => row.getD i ""
  | none => ""

/-- The outcome of `processDataForChart`: either a chart config, or a
thrown JS error (a rejected promise).  The repository defines no
named failure variant such as `ColumnNotFound`; the only failure mode
is the dataframe library throwing. -/
inductive ProcOutcome where
  | ok (cfg : ChartConfig)
  | thrownError (msg : String)
deriving DecidableEq

/-! ### Aggregation pipeline (dataProcessing.ts, processDataForChart) -/

/-- The projected two-column sub-dataframe with the y column cast via
`parseFloat` (dataProcessing.ts lines 23–31). -/
def subTable (t : Table) (p : ChartPlan) : List (String × NF) :=
  t.rows.map (fun r => (cellAt t r p.x.column, parseFloatJS (cellAt t r p.y.column)))

/-- Distinct keys in first-encountered order. -/
def firstKeys (l : List String) : List String :=
  l.foldl (fun acc k => if k ∈ acc then acc else acc ++ [k]) []

/-- Modelled from the spec: `groupby` of the danfo.js library (not in
the source tree) — §4.4 step 3: group rows by the literal x value,
groups in first-encountered order. -/
def groupsOf (t : Table) (p : ChartPlan) : List (String × List NF) :=
  (firstKeys ((subTable t p).map Prod.fst)).map
    (fun k => (k, ((subTable t p).filter (fun r => r.1 == k)).map Prod.snd))

/-- The branch on `plan.y.aggregation` (dataProcessing.ts lines
37–45): `sum`, `avg` (danfo `mean`), `count`, and a default `sum`
branch for every other tag.  The aggregations themselves are modelled
from the spec (§4.4 step 4) since danfo.js is not in the source
tree. -/
def aggregate (tag : String) (vals : List NF) : NF :=
  if tag == "sum" then nfSum vals
  else if tag == "avg" then nfDivNat (nfSum vals) vals.length
  else if tag == "count" then some ((vals.length : ℚ))
  else nfSum vals

/-- The grouped-and-aggregated dataframe: one `(key, value)` row per
group, groups in first-encountered order. -/
def aggGroups (t : Table) (p : ChartPlan) : List (String × NF) :=
  (groupsOf t p).map (fun g => (g.1, aggregate p.y.aggregation g.2))

/-- Strict descending comparison on JS numbers; comparisons with NaN
are `false` in JS, and the sort key order places NaN below every
number. -/
def nfGt : NF → NF → Bool
  | some a, some b => decide (b < a)
  | some _, none => true
  | none, _ => false

/-- Sort precedence for the value column, descending: `a` may precede
`b` when `b` is not strictly greater. -/
def rNF (a b : String × NF) : Prop := nfGt b.2 a.2 = false

instance : DecidableRel rNF :=
  fun a b => inferInstanceAs (Decidable (nfGt b.2 a.2 = false))

/-- Lexicographic comparison by code units, modelling JS string
comparison. -/
def charListLt : List Char → List Char → Bool
  | [], [] => false
  | [], _ :: _ => true
  | _ :: _, [] => false
  | a :: as, b :: bs =>
    if a.toNat < b.toNat then true
    else if b.toNat < a.toNat then false
    else charListLt as bs

def strLt (a b : String) : Bool := charListLt a.toList b.toList

/-- Sort precedence for a string column, descending. -/
def rStr (a b : String × NF) : Prop := strLt a.1 b.1 = false

instance : DecidableRel rStr :=
  fun a b => inferInstanceAs (Decidable (strLt a.1 b.1 = false))

/-- Modelled from the spec: danfo `sortValues` with
`ascending: false` (§4.4 step 5) — a stable descending sort on the
selected column. -/
def sortDescNF (l : List (String × NF)) : List (String × NF) :=
  List.insertionSort rNF l

/-- Modelled from the spec: the same stable descending sort when the
selected column is the string-valued group-key column. -/
def sortDescStr (l : List (String × NF)) : List (String × NF) :=
  List.insertionSort rStr l

def strStarts (s pre : String) : Bool := pre.toList.isPrefixOf s.toList

def strEnds (s suf : String) : Bool := suf.toList.isSuffixOf s.toList

/-- Modelled from the spec: danfo names an aggregated column
`col_sum` / `col_mean` / `col_count` after the operation actually
performed (the default branch performs `sum`). -/
def aggSuffix (tag : String) : String :=
  if tag == "sum" then "sum"
  else if tag == "avg" then "mean"
  else if tag == "count" then "count"
  else "sum"

/-- The `availableCols.find(c => c.startsWith(plan.y.column) ||
c.endsWith(plan.y.aggregation))` heuristic of dataProcessing.ts lines
55–57, over the columns `[x.column, y.column + "_" + suffix]` of the
aggregated frame, with the `availableCols[1]` fallback: returns the
index of the column used for sorting and for the output values. -/
def finalYColIdx (p : ChartPlan) : ℕ :=
  if strStarts p.x.column p.y.column || strEnds p.x.column p.y.aggregation then 0
  else if strStarts (p.y.column ++ "_" ++ aggSuffix p.y.aggregation) p.y.column ||
      strEnds (p.y.column ++ "_" ++ aggSuffix p.y.aggregation) p.y.aggregation then 1
  else 1

def bgColor : String := "rgba(53, 162, 235, 0.5)"

def bdColor : String := "rgb(53, 162, 235)"

/-- `processDataForChart` of dataProcessing.ts: project to the two
referenced columns (danfo `loc` throws on a missing column —
modelled as `thrownError`), cast the y column with `parseFloat`,
group by the x column, aggregate per the plan, sort descending on the
column picked by the `finalYCol` heuristic, truncate to `top_k` rows
(`head`; a non-positive `top_k` keeps no rows), and assemble the
Chart.js config. -/
def processDataForChart (t : Table) (p : ChartPlan) (chartId title : String) :
    ProcOutcome :=
  if p.x.column ∈ t.header then
    if p.y.column ∈ t.header then
      let sorted :=
        if finalYColIdx p == 0 then sortDescStr (aggGroups t p)
        else sortDescNF (aggGroups t p)
      let top := sorted.take p.top_k.toNat
      ProcOutcome.ok
        { id := chartId, title := title, type := p.type,
          data :=
            { labels := top.map Prod.fst,
              datasets := [{ label := p.y.label,
                             data :=
                               if finalYColIdx p == 0 then
                                 top.map (fun g => Cell.str g.1)
                               else top.map (fun g => Cell.num g.2),
                             backgroundColor := bgColor,
                             borderColor := bdColor,
                             borderWidth := 1 }] } }
    else ProcOutcome.thrownError ("ParamError: invalid column " ++ p.y.column)
  else ProcOutcome.thrownError ("ParamError: invalid column " ++ p.x.column)

/-! ### Plan extraction (ChartsWorkspace.tsx, handleAddChart) -/

/-- JS `indexOf` of a character. -/
def firstIdxOf : List Char → Char → Option ℕ
  | [], _ => none
  | x :: rest, c => if x == c then some 0 else (firstIdxOf rest c).map (· + 1)

/-- JS `lastIndexOf` of a character. -/
def lastIdxOf : List Char → Char → Option ℕ
  | [], _ => none
  | x :: rest, c =>
    match lastIdxOf rest c with
    | some j => some (j + 1)
    | none => if x == c then some 0 else none

/-- JS `String.prototype.substring`: swaps its bounds when
`start > end` and clamps them to the string length. -/
def jsSubstring (s : String) (a b : ℕ) : String :=
  if a ≤ b then String.mk ((s.toList.drop a).take (b - a))
  else String.mk ((s.toList.drop b).take (a - b))

/-- The plan-parsing block of `handleAddChart` (ChartsWorkspace.tsx
lines 122–133): find the first `{` and the last `}`; if both exist,
parse the enclosed substring, otherwise leave the plan `null`.
`parse` abstracts `JSON.parse` composed with the `try`/`catch`:
a parse failure is `none`, caught and turned into a null plan. -/
def extractPlan (parse : String → Option ChartPlan) (acc : String) :
    Option ChartPlan :=
  match firstIdxOf acc.toList '{', lastIdxOf acc.toList '}' with
  | some i, some j => parse (jsSubstring acc i (j + 1))
  | _, _ => none

/-- The remainder of `handleAddChart`: process the data only when a
plan was extracted and its type is `bar`. -/
def planAndProcess (parse : String → Option ChartPlan) (acc : String) (t : Table)
    (chartId title : String) : Option ProcOutcome :=
  match extractPlan parse acc with
  | some p =>
    if p.type == "bar" then some (processDataForChart t p chartId title) else none
  | none => none

/-- The Series content of an outcome: labels and dataset values,
without the caller-supplied id and title. -/
def seriesPart : ProcOutcome → Option (List String × List (List Cell))
  | ProcOutcome.ok cfg => some (cfg.data.labels, cfg.data.datasets.map Dataset.data)
  | ProcOutcome.thrownError _ => none

end DataGeany

namespace DataGeany

/-- C1: the decoder is not split-invariant.  Splitting the reference
stream `"event: content\ndata: hi\n"` in the middle of the data line
yields the frame sequence `["h"]`, while the unsplit stream yields
`["hi"]`: the code splits each chunk independently, with no carry
buffer holding the partial trailing line. -/
theorem c1_decoder_split_divergence :
    decodeStream ["event: content\ndata: hi\n"] = ["hi"] ∧
    decodeStream ["event: content\ndata: h", "i\n"] = ["h"] := by
  decide

/-- C3 counterexample: after a `[DONE]` payload for the `content`
event, the decoder keeps emitting.  The payload `"after"`, which
occurs after the `[DONE]` frame, is still emitted, refuting the claim
that no later payload is ever emitted. -/
theorem c3_after_done_still_emitted :
    decodeStream ["event: content\ndata: one\ndata: [DONE]\ndata: after\n"] =
      ["one", "after"] := by
  decide

lemma runDecoder_append (ev : String) (l1 l2 : List String) :
    runDecoder ev (l1 ++ l2) =
      ((runDecoder (runDecoder ev l1).1 l2).1,
       (runDecoder ev l1).2 ++ (runDecoder (runDecoder ev l1).1 l2).2) := by
  induction l1 generalizing ev with
  | nil => simp [runDecoder]
  | cons c cs ih => simp [runDecoder, ih]

lemma decodeChunk_done (ev : String) :
    decodeChunk ev "data: [DONE]\n" = (ev, []) := by
  have hsplit : splitLines ("data: [DONE]\n".toList) =
      ["data: [DONE]".toList, []] := by decide
  have h1 : "event: ".toList.isPrefixOf "data: [DONE]".toList = false := by decide
  have h2 : "data: ".toList.isPrefixOf "data: [DONE]".toList = true := by decide
  have h3 : String.mk ("data: [DONE]".toList.drop 6) = "[DONE]" := by decide
  have h4 : "event: ".toList.isPrefixOf ([] : List Char) = false := by decide
  have h5 : "data: ".toList.isPrefixOf ([] : List Char) = false := by decide
  simp [decodeChunk, hsplit, procLines, procLine, h1, h2, h3, h4, h5]

lemma runDecoder_single_done (ev : String) :
    runDecoder ev ["data: [DONE]\n"] = (ev, []) := by
  simp [runDecoder, decodeChunk_done ev]

lemma procLine_ne_done (ev : String) (line : List Char) (s : String)
    (h : s ∈ (procLine ev line).2) : s ≠ "[DONE]" := by
  unfold procLine at h
  split at h
  · simp at h
  · split at h
    · dsimp only at h
      split at h
      · rename_i hguard
        simp only [Bool.and_eq_true, bne_iff_ne, ne_eq] at hguard
        simp only [List.mem_singleton] at h
        subst h
        exact hguard.2
      · simp at h
    · simp at h

lemma procLines_ne_done (ls : List (List Char)) :
    ∀ (ev : String) (s : String), s ∈ (procLines ev ls).2 → s ≠ "[DONE]" := by
  induction ls with
  | nil => intro ev s h; simp [procLines] at h
  | cons l ls ih =>
    intro ev s h
    simp only [procLines, List.mem_append] at h
    rcases h with h | h
    · exact procLine_ne_done ev l s h
    · exact ih _ s h

lemma runDecoder_ne_done (chunks : List String) :
    ∀ (ev : String) (s : String), s ∈ (runDecoder ev chunks).2 → s ≠ "[DONE]" := by
  induction chunks with
  | nil => intro ev s h; simp [runDecoder] at h
  | cons c cs ih =>
    intro ev s h
    simp only [runDecoder, List.mem_append] at h
    rcases h with h | h
    · exact procLines_ne_done _ _ s h
    · exact ih _ s h

/-- C3 (amended): a payload exactly equal to `"[DONE]"` is itself
filtered out — it is never emitted, for any stream — and inserting a
`[DONE]` data line as a chunk changes nothing; but the decoder does
not stop: it continues to decode and emit all later frames (see
`c3_after_done_still_emitted`). -/
theorem c3_done_filtered_but_not_terminal (pre post : List String) :
    decodeStream (pre ++ "data: [DONE]\n" :: post) = decodeStream (pre ++ post) ∧
    ∀ s ∈ decodeStream (pre ++ post), s ≠ "[DONE]" := by
  constructor
  · unfold decodeStream
    have h : pre ++ "data: [DONE]\n" :: post = pre ++ (["data: [DONE]\n"] ++ post) := by
      simp
    rw [h, runDecoder_append "" pre (["data: [DONE]\n"] ++ post),
      runDecoder_append "" pre post,
      runDecoder_append (runDecoder "" pre).1 ["data: [DONE]\n"] post,
      runDecoder_single_done]
    simp
  · intro s hs
    exact runDecoder_ne_done _ _ s hs

/-- Witness for `c3_done_filtered_but_not_terminal` at a concrete
stream. -/
theorem c3_done_filtered_witness :
    decodeStream (["event: content\ndata: a\n"] ++ "data: [DONE]\n" :: ["data: b\n"]) =
      decodeStream (["event: content\ndata: a\n"] ++ ["data: b\n"]) ∧
    "a" ≠ "[DONE]" := by
  refine ⟨(c3_done_filtered_but_not_terminal ["event: content\ndata: a\n"] ["data: b\n"]).1, ?_⟩
  exact (c3_done_filtered_but_not_terminal ["event: content\ndata: a\n"] ["data: b\n"]).2
    "a" (by decide)

end DataGeany

namespace DataGeany

/-- C2: on the reference table
`[{region:"N",sales:"10"},{region:"N",sales:"20"},{region:"S",sales:"5"}]`
with plan `{x:region, y:sales, top_k:2}`, the engine returns labels
`["N","S"]` with values `[30,5]` under `sum`, `[15,5]` under `avg`,
and `[2,1]` under `count`. -/
theorem c2_concrete_aggregations :
    processDataForChart ⟨["region", "sales"], [["N", "10"], ["N", "20"], ["S", "5"]]⟩
        ⟨"bar", ⟨"region", "Region"⟩, ⟨"sales", "sum", "Total Sales"⟩, 2⟩ "c" "t" =
      ProcOutcome.ok ⟨"c", "t", "bar",
        ⟨["N", "S"], [⟨"Total Sales", [Cell.num (some 30), Cell.num (some 5)],
          bgColor, bdColor, 1⟩]⟩⟩ ∧
    processDataForChart ⟨["region", "sales"], [["N", "10"], ["N", "20"], ["S", "5"]]⟩
        ⟨"bar", ⟨"region", "Region"⟩, ⟨"sales", "avg", "Total Sales"⟩, 2⟩ "c" "t" =
      ProcOutcome.ok ⟨"c", "t", "bar",
        ⟨["N", "S"], [⟨"Total Sales", [Cell.num (some 15), Cell.num (some 5)],
          bgColor, bdColor, 1⟩]⟩⟩ ∧
    processDataForChart ⟨["region", "sales"], [["N", "10"], ["N", "20"], ["S", "5"]]⟩
        ⟨"bar", ⟨"region", "Region"⟩, ⟨"sales", "count", "Total Sales"⟩, 2⟩ "c" "t" =
      ProcOutcome.ok ⟨"c", "t", "bar",
        ⟨["N", "S"], [⟨"Total Sales", [Cell.num (some 2), Cell.num (some 1)],
          bgColor, bdColor, 1⟩]⟩⟩ := by
  refine ⟨by decide, by decide, by decide⟩

/-- C4 counterexample: a plan referencing the absent column `sales`
makes `processDataForChart` end in a thrown dataframe-library error (a
rejected promise), not an explicit `ColumnNotFound` result variant —
the outcome type of the code has no such variant at all. -/
theorem c4_missing_column_yields_throw :
    processDataForChart ⟨["region"], [["N"]]⟩
        ⟨"bar", ⟨"region", "Region"⟩, ⟨"sales", "sum", "Sales"⟩, 5⟩ "c" "t" =
      ProcOutcome.thrownError "ParamError: invalid column sales" := by
  decide

/-- C4 (amended): for every table and plan referencing an x- or
y-column absent from the table, the engine rejects with a thrown
library error (there is no named `ColumnNotFound` variant anywhere in
the code); the caller catches the rejection in a generic
`try`/`catch`. -/
theorem c4_missing_column_throws (t : Table) (p : ChartPlan) (cid ttl : String)
    (h : p.x.column ∉ t.header ∨ p.y.column ∉ t.header) :
    ∃ msg, processDataForChart t p cid ttl = ProcOutcome.thrownError msg := by
  unfold processDataForChart
  rcases h with h | h
  · rw [if_neg h]
    exact ⟨_, rfl⟩
  · by_cases hx : p.x.column ∈ t.header
    · rw [if_pos hx, if_neg h]
      exact ⟨_, rfl⟩
    · rw [if_neg hx]
      exact ⟨_, rfl⟩

/-- Witness for `c4_missing_column_throws` at a concrete input. -/
theorem c4_missing_column_throws_witness :
    ∃ msg, processDataForChart ⟨["region"], [["N"]]⟩
        ⟨"bar", ⟨"x", "X"⟩, ⟨"region", "sum", "R"⟩, 5⟩ "c" "t" =
      ProcOutcome.thrownError msg :=
  c4_missing_column_throws ⟨["region"], [["N"]]⟩
    ⟨"bar", ⟨"x", "X"⟩, ⟨"region", "sum", "R"⟩, 5⟩ "c" "t" (Or.inl (by decide))

/-- C8: when the plan's columns exist, an empty table yields an empty
Series (not an error), and a non-positive `top_k` yields an empty
Series for every table. -/
theorem c8_empty_table_and_nonpositive_topk (t : Table) (p : ChartPlan)
    (cid ttl : String) (hx : p.x.column ∈ t.header) (hy : p.y.column ∈ t.header) :
    (t.rows = [] → processDataForChart t p cid ttl =
      ProcOutcome.ok ⟨cid, ttl, p.type, ⟨[], [⟨p.y.label, [], bgColor, bdColor, 1⟩]⟩⟩) ∧
    (p.top_k ≤ 0 → ∃ cfg, processDataForChart t p cid ttl = ProcOutcome.ok cfg ∧
      cfg.data.labels = [] ∧ cfg.data.datasets = [⟨p.y.label, [], bgColor, bdColor, 1⟩]) := by
  constructor
  · intro hrows
    have hagg : aggGroups t p = [] := by
      simp [aggGroups, groupsOf, subTable, firstKeys, hrows]
    unfold processDataForChart
    rw [if_pos hx, if_pos hy]
    simp only [hagg]
    split <;> simp [sortDescStr, sortDescNF, List.insertionSort]
  · intro htop
    have htk : p.top_k.toNat = 0 := Int.toNat_of_nonpos htop
    unfold processDataForChart
    rw [if_pos hx, if_pos hy]
    exact ⟨_, rfl, by simp [htk], by simp [htk]⟩

/-- Witness for `c8_empty_table_and_nonpositive_topk` at concrete
inputs: an empty table, and a table with `top_k = 0`. -/
theorem c8_empty_table_witness :
    processDataForChart ⟨["a", "b"], []⟩ ⟨"bar", ⟨"a", "A"⟩, ⟨"b", "sum", "B"⟩, 3⟩
        "c" "t" =
      ProcOutcome.ok ⟨"c", "t", "bar", ⟨[], [⟨"B", [], bgColor, bdColor, 1⟩]⟩⟩ ∧
    (∃ cfg, processDataForChart ⟨["a", "b"], [["x", "1"]]⟩
        ⟨"bar", ⟨"a", "A"⟩, ⟨"b", "sum", "B"⟩, 0⟩ "c" "t" = ProcOutcome.ok cfg ∧
      cfg.data.labels = [] ∧ cfg.data.datasets = [⟨"B", [], bgColor, bdColor, 1⟩]) :=
  ⟨(c8_empty_table_and_nonpositive_topk ⟨["a", "b"], []⟩
      ⟨"bar", ⟨"a", "A"⟩, ⟨"b", "sum", "B"⟩, 3⟩ "c" "t" (by decide) (by decide)).1 rfl,
   (c8_empty_table_and_nonpositive_topk ⟨["a", "b"], [["x", "1"]]⟩
      ⟨"bar", ⟨"a", "A"⟩, ⟨"b", "sum", "B"⟩, 0⟩ "c" "t" (by decide) (by decide)).2
     (by decide)⟩

lemma foldl_nfAdd_none (l : List NF) : l.foldl nfAdd none = none := by
  induction l with
  | nil => rfl
  | cons x xs ih => simpa [nfAdd] using ih

lemma foldl_nfAdd_of_mem_none (l : List NF) :
    ∀ acc : NF, none ∈ l → l.foldl nfAdd acc = none := by
  induction l with
  | nil => intro acc h; simp at h
  | cons x xs ih =>
    intro acc h
    rcases List.mem_cons.mp h with h | h
    · subst h
      have : nfAdd acc none = none := by cases acc <;> rfl
      simp [List.foldl_cons, this, foldl_nfAdd_none]
    · exact ih _ h

lemma nfSum_of_mem_none (l : List NF) (h : none ∈ l) : nfSum l = none :=
  foldl_nfAdd_of_mem_none l (some 0) h

/-- C5: a y-cell that fails numeric coercion (such as `"N/A"`) is
coerced to NaN, and that NaN poisons its group's `sum` and `avg`
aggregates (the group's value in the aggregated frame is NaN — the
row is neither dropped nor turned into a thrown failure), while the
`count` aggregate still equals the full number of rows in the
group. -/
theorem c5_nan_poisons_group (t : Table) (p : ChartPlan) (k : String) (cells : List NF)
    (hmem : (k, cells) ∈ groupsOf t p) (hnan : none ∈ cells) :
    parseFloatJS "N/A" = none ∧
    (p.y.aggregation = "sum" → (k, none) ∈ aggGroups t p) ∧
    (p.y.aggregation = "avg" → (k, none) ∈ aggGroups t p) ∧
    (p.y.aggregation = "count" → (k, some ((cells.length : ℚ))) ∈ aggGroups t p) := by
  have hsum : nfSum cells = none := nfSum_of_mem_none cells hnan
  have hmap := List.mem_map_of_mem (fun g => (g.1, aggregate p.y.aggregation g.2)) hmem
  refine ⟨by decide, ?_, ?_, ?_⟩ <;> intro htag
  · have ha : aggregate p.y.aggregation cells = none := by
      rw [htag]; simp [aggregate, hsum]
    simpa [aggGroups, ha] using hmap
  · have ha : aggregate p.y.aggregation cells = none := by
      rw [htag]; simp [aggregate, hsum, nfDivNat]
    simpa [aggGroups, ha] using hmap
  · have ha : aggregate p.y.aggregation cells = some ((cells.length : ℚ)) := by
      rw [htag]; simp [aggregate]
    simpa [aggGroups, ha] using hmap

/-- Witness for `c5_nan_poisons_group`: the `"N/A"` cell of group `N`
poisons its sum. -/
theorem c5_nan_witness :
    parseFloatJS "N/A" = none ∧
    ("N", (none : NF)) ∈ aggGroups ⟨["region", "sales"], [["N", "N/A"], ["S", "5"]]⟩
      ⟨"bar", ⟨"region", "Region"⟩, ⟨"sales", "sum", "Sales"⟩, 2⟩ := by
  have h := c5_nan_poisons_group ⟨["region", "sales"], [["N", "N/A"], ["S", "5"]]⟩
    ⟨"bar", ⟨"region", "Region"⟩, ⟨"sales", "sum", "Sales"⟩, 2⟩ "N" [none]
    (by decide) (by decide)
  exact ⟨h.1, h.2.1 rfl⟩

lemma seriesPart_processDataForChart (t : Table) (p : ChartPlan)
    (cid ttl cid2 ttl2 : String) :
    seriesPart (processDataForChart t p cid ttl) =
      seriesPart (processDataForChart t p cid2 ttl2) := by
  unfold processDataForChart
  split
  · split
    · rfl
    · rfl
  · rfl

lemma firstIdxOf_eq_none_iff (l : List Char) (c : Char) :
    firstIdxOf l c = none ↔ c ∉ l := by
  induction l with
  | nil => simp [firstIdxOf]
  | cons x xs ih =>
    by_cases hx : (x == c) = true
    · have : x = c := by simpa using hx
      subst this
      simp [firstIdxOf]
    · have hne : x ≠ c := by simpa using hx
      simp [firstIdxOf, hx, Option.map_eq_none', ih, List.mem_cons]
      tauto

lemma lastIdxOf_eq_none_iff (l : List Char) (c : Char) :
    lastIdxOf l c = none ↔ c ∉ l := by
  induction l with
  | nil => simp [lastIdxOf]
  | cons x xs ih =>
    unfold lastIdxOf
    cases h : lastIdxOf xs c with
    | some j =>
      have : c ∈ xs := by
        by_contra hc
        rw [ih.mpr hc] at h
        cases h
      simp [List.mem_cons, this]
    | none =>
      have hc : c ∉ xs := ih.mp h
      by_cases hx : (x == c) = true
      · have : x = c := by simpa using hx
        subst this
        simp [hx, List.mem_cons]
      · have hne : x ≠ c := by simpa using hx
        simp [hx, List.mem_cons, hc]
        exact fun hcontra => hne hcontra.symm

lemma firstIdxOf_of_first (l : List Char) (c : Char) (i : ℕ)
    (hget : l.get? i = some c) (hmin : ∀ k < i, l.get? k ≠ some c) :
    firstIdxOf l c = some i := by
  induction l generalizing i with
  | nil => simp at hget
  | cons x xs ih =>
    cases i with
    | zero =>
      have : x = c := by simpa using hget
      subst this
      simp [firstIdxOf]
    | succ n =>
      have hx : x ≠ c := by
        have := hmin 0 (Nat.succ_pos n)
        simpa using this
      have hxb : (x == c) = false := by simpa using hx
      have hrec := ih n (by simpa using hget)
        (fun k hk => by simpa using hmin (k + 1) (Nat.succ_lt_succ hk))
      simp [firstIdxOf, hxb, hrec]

lemma lastIdxOf_of_last (l : List Char) (c : Char) (j : ℕ)
    (hget : l.get? j = some c) (hmax : ∀ k, j < k → l.get? k ≠ some c) :
    lastIdxOf l c = some j := by
  induction l generalizing j with
  | nil => simp at hget
  | cons x xs ih =>
    cases j with
    | zero =>
      have hx : x = c := by simpa using hget
      have hnone : lastIdxOf xs c = none := by
        rw [lastIdxOf_eq_none_iff]
        intro hc
        rcases List.mem_iff_get?.mp hc with ⟨n, hn⟩
        exact hmax (n + 1) (Nat.succ_pos n) (by simpa using hn)
      simp [lastIdxOf, hnone, hx]
    | succ n =>
      have hrec := ih n (by simpa using hget)
        (fun k hk => by simpa using hmax (k + 1) (Nat.succ_lt_succ hk))
      simp [lastIdxOf, hrec]

/-- C6: the plan extractor returns a null plan (not an error) when
either brace is absent; when both exist it hands `parse` exactly the
substring from the first `{` to the last `}` inclusive; and a parse
failure (modelled by a parser that returns `none`, as the caught
`JSON.parse` exception does) yields a null plan, never a fatal
outcome. -/
theorem c6_extract_plan_behaviour (parse : String → Option ChartPlan) (s : String) :
    (('{' ∉ s.toList ∨ '}' ∉ s.toList) → extractPlan parse s = none) ∧
    (∀ i j, s.toList.get? i = some '{' →
      (∀ k < i, s.toList.get? k ≠ some '{') →
      s.toList.get? j = some '}' →
      (∀ k < s.toList.length, j < k → s.toList.get? k ≠ some '}') →
      i ≤ j →
      extractPlan parse s = parse (String.mk ((s.toList.drop i).take (j + 1 - i)))) ∧
    ((∀ u, parse u = none) → extractPlan parse s = none) := by
  refine ⟨?_, ?_, ?_⟩
  · intro h
    unfold extractPlan
    rcases h with h | h
    · rw [(firstIdxOf_eq_none_iff _ _).mpr h]
    · rw [(lastIdxOf_eq_none_iff _ _).mpr h]
      cases firstIdxOf s.toList '{' <;> rfl
  · intro i j hi himin hj hjmax hij
    have hjmax' : ∀ k, j < k → s.toList.get? k ≠ some '}' := by
      intro k hk
      by_cases hlen : k < s.toList.length
      · exact hjmax k hlen hk
      · rw [List.get?_eq_none.mpr (le_of_not_lt hlen)]
        simp
    unfold extractPlan
    rw [firstIdxOf_of_first _ _ _ hi himin, lastIdxOf_of_last _ _ _ hj hjmax']
    dsimp only
    unfold jsSubstring
    rw [if_pos (by omega : i ≤ j + 1)]
  · intro hparse
    unfold extractPlan
    cases firstIdxOf s.toList '{' with
    | none => rfl
    | some i =>
      cases lastIdxOf s.toList '}' with
      | none => rfl
      | some j => exact hparse _

/-- Witness for `c6_extract_plan_behaviour`: `"no braces here"` gives
a null plan; on `"x{1}y"` the substring `"{1}"` is handed to the
parser; an always-failing parser gives a null plan. -/
theorem c6_extract_plan_witness :
    extractPlan (fun _ => none) "no braces here" = none ∧
    extractPlan (fun u => if u = "{1}" then
        some ⟨"bar", ⟨"a", "A"⟩, ⟨"b", "sum", "B"⟩, 1⟩ else none) "x{1}y" =
      (fun u : String => if u = "{1}" then
        some (⟨"bar", ⟨"a", "A"⟩, ⟨"b", "sum", "B"⟩, 1⟩ : ChartPlan) else none)
        (String.mk (("x{1}y".toList.drop 1).take (3 + 1 - 1))) ∧
    extractPlan (fun _ => none) "x{1}y" = none := by
  refine ⟨?_, ?_, ?_⟩
  · exact (c6_extract_plan_behaviour (fun _ => none) "no braces here").1
      (Or.inl (by decide))
  · exact (c6_extract_plan_behaviour _ "x{1}y").2.1 1 3 (by decide) (by decide)
      (by decide) (by decide) (by decide)
  · exact (c6_extract_plan_behaviour (fun _ => none) "x{1}y").2.2 (fun u => rfl)

/-- C9: the plan-extraction-plus-aggregation pipeline is a pure
function of its inputs — rerunning it on identical inputs gives the
identical outcome, and the Series content (labels and values) does
not depend on the wall-clock-derived chart id or on the title, the
only caller-supplied non-data arguments. -/
theorem c9_pipeline_deterministic (parse : String → Option ChartPlan) (acc : String)
    (t : Table) (cid ttl cid2 ttl2 : String) :
    Option.map seriesPart (planAndProcess parse acc t cid ttl) =
      Option.map seriesPart (planAndProcess parse acc t cid2 ttl2) ∧
    planAndProcess parse acc t cid ttl = planAndProcess parse acc t cid ttl := by
  refine ⟨?_, rfl⟩
  unfold planAndProcess
  cases extractPlan parse acc with
  | none => rfl
  | some p =>
    dsimp only
    by_cases hb : (p.type == "bar") = true
    · rw [if_pos hb, if_pos hb]
      simp only [Option.map]
      rw [seriesPart_processDataForChart t p cid ttl cid2 ttl2]
    · rw [if_neg hb, if_neg hb]

lemma nfGt_asymm (x y : NF) (h : nfGt x y = true) : nfGt y x = false := by
  cases x with
  | none => simp [nfGt] at h
  | some a =>
    cases y with
    | none => simp [nfGt]
    | some b =>
      simp only [nfGt, decide_eq_true_eq] at h
      simp only [nfGt, decide_eq_false_iff_not]
      exact lt_asymm h

lemma nfGt_flip_trans (a b c : NF) (h1 : nfGt b a = false) (h2 : nfGt c b = false) :
    nfGt c a = false := by
  cases a with
  | none =>
    cases b with
    | none => exact h2
    | some y => simp [nfGt] at h1
  | some x =>
    cases c with
    | none => simp [nfGt]
    | some z =>
      cases b with
      | none => simp [nfGt] at h2
      | some y =>
        simp only [nfGt, decide_eq_false_iff_not] at h1 h2 ⊢
        intro hlt
        exact h1 (lt_of_lt_of_le hlt (le_of_not_lt h2))

lemma nfGt_ne (x y : NF) (h : nfGt x y = true) : x ≠ y := by
  cases x with
  | none => simp [nfGt] at h
  | some a =>
    cases y with
    | none => simp
    | some b =>
      simp only [nfGt, decide_eq_true_eq] at h
      simp only [ne_eq, Option.some.injEq]
      intro he
      exact absurd h (by rw [he]; exact lt_irrefl b)

instance : IsTotal (String × NF) rNF := by
  constructor
  intro a b
  by_cases h : nfGt b.2 a.2 = false
  · exact Or.inl h
  · right
    have ht : nfGt b.2 a.2 = true := by
      cases hh : nfGt b.2 a.2 with
      | false => exact absurd hh h
      | true => rfl
    exact nfGt_asymm _ _ ht

instance : IsTrans (String × NF) rNF :=
  ⟨fun a b c h1 h2 => nfGt_flip_trans a.2 b.2 c.2 h1 h2⟩

lemma filter_orderedInsert_eq (v : NF) (a : String × NF) (ha : a.2 = v)
    (s : List (String × NF)) :
    (s.orderedInsert rNF a).filter (fun g => decide (g.2 = v)) =
      a :: s.filter (fun g => decide (g.2 = v)) := by
  induction s with
  | nil => simp [List.orderedInsert, ha]
  | cons y ys ih =>
    by_cases hr : rNF a y
    · simp [List.orderedInsert, hr, ha]
    · have hgt : nfGt y.2 a.2 = true := by
        cases hh : nfGt y.2 a.2 with
        | true => rfl
        | false => exact absurd hh hr
      have hne : y.2 ≠ v := ha ▸ nfGt_ne _ _ hgt
      simp [List.orderedInsert, hr, hne, ih]

lemma filter_orderedInsert_ne (v : NF) (a : String × NF) (ha : a.2 ≠ v)
    (s : List (String × NF)) :
    (s.orderedInsert rNF a).filter (fun g => decide (g.2 = v)) =
      s.filter (fun g => decide (g.2 = v)) := by
  induction s with
  | nil => simp [List.orderedInsert, ha]
  | cons y ys ih =>
    by_cases hr : rNF a y
    · simp [List.orderedInsert, hr, ha]
    · simp [List.orderedInsert, hr, List.filter_cons, ih]

lemma insertionSort_filter_stable (v : NF) (l : List (String × NF)) :
    (List.insertionSort rNF l).filter (fun g => decide (g.2 = v)) =
      l.filter (fun g => decide (g.2 = v)) := by
  induction l with
  | nil => rfl
  | cons a l ih =>
    simp only [List.insertionSort]
    by_cases ha : a.2 = v
    · rw [filter_orderedInsert_eq v a ha, ih]
      simp [List.filter_cons, ha]
    · rw [filter_orderedInsert_ne v a ha, ih]
      simp [List.filter_cons, ha]

/-- C7 (amended): provided the sort-column heuristic picks the
aggregated column — the x-column neither starts with the y-column nor
ends with the aggregation tag; otherwise the engine sorts by the
group-key strings instead, see the counterexample — the output is a
stable descending sort of the aggregated groups truncated to the
first `top_k`: it is a permutation of the groups, pairwise
non-increasing, ties keep first-encountered order, and a `top_k` at
least the number of groups returns every group without padding. -/
theorem c7_stable_sort_truncate (t : Table) (p : ChartPlan) (cid ttl : String)
    (hx : p.x.column ∈ t.header) (hy : p.y.column ∈ t.header)
    (hsel : (strStarts p.x.column p.y.column ||
      strEnds p.x.column p.y.aggregation) = false) :
    ∃ cfg, processDataForChart t p cid ttl = ProcOutcome.ok cfg ∧
      ∃ sorted : List (String × NF),
        sorted.Perm (aggGroups t p) ∧
        List.Pairwise (fun a b => nfGt b.2 a.2 = false) sorted ∧
        (∀ v : NF, sorted.filter (fun g => decide (g.2 = v)) =
          (aggGroups t p).filter (fun g => decide (g.2 = v))) ∧
        cfg.data.labels = (sorted.take p.top_k.toNat).map Prod.fst ∧
        cfg.data.datasets = [⟨p.y.label,
          (sorted.take p.top_k.toNat).map (fun g => Cell.num g.2),
          bgColor, bdColor, 1⟩] ∧
        ((aggGroups t p).length ≤ p.top_k.toNat →
          cfg.data.labels = sorted.map Prod.fst) := by
  have hidx : finalYColIdx p = 1 := by
    unfold finalYColIdx
    rw [if_neg (by simp [hsel])]
    exact ite_self 1
  have hb : (finalYColIdx p == 0) = false := by rw [hidx]; rfl
  unfold processDataForChart
  rw [if_pos hx, if_pos hy]
  refine ⟨_, rfl, List.insertionSort rNF (aggGroups t p),
    List.perm_insertionSort rNF _, ?_, ?_, ?_, ?_, ?_⟩
  · exact List.sorted_insertionSort rNF (aggGroups t p)
  · intro v
    exact insertionSort_filter_stable v _
  · simp [hb, sortDescNF]
  · simp [hb, sortDescNF]
  · intro hlen
    have hlen2 : (List.insertionSort rNF (aggGroups t p)).length ≤ p.top_k.toNat := by
      rw [(List.perm_insertionSort rNF (aggGroups t p)).length_eq]
      exact hlen
    simp [hb, sortDescNF, List.take_of_length_le hlen2]

/-- C7 counterexample: with x-column `salesperson` and y-column
`sales`, the aggregated groups are `A ↦ 5, B ↦ 2`, yet the engine
outputs labels `["B","A"]` with the key strings as values: because
`"salesperson"` starts with `"sales"`, the column heuristic selects
the key column, so the output is not sorted by aggregated value
descending (and the values are not the aggregates at all). -/
theorem c7_sorts_by_key_column_counterexample :
    aggGroups ⟨["salesperson", "sales"], [["A", "5"], ["B", "2"]]⟩
        ⟨"bar", ⟨"salesperson", "X"⟩, ⟨"sales", "sum", "Y"⟩, 2⟩ =
      [("A", some 5), ("B", some 2)] ∧
    processDataForChart ⟨["salesperson", "sales"], [["A", "5"], ["B", "2"]]⟩
        ⟨"bar", ⟨"salesperson", "X"⟩, ⟨"sales", "sum", "Y"⟩, 2⟩ "c" "t" =
      ProcOutcome.ok ⟨"c", "t", "bar", ⟨["B", "A"],
        [⟨"Y", [Cell.str "B", Cell.str "A"], bgColor, bdColor, 1⟩]⟩⟩ :=
  ⟨by decide, by decide⟩

/-- Witness for `c7_stable_sort_truncate` at a concrete table and
plan. -/
theorem c7_stable_sort_witness :
    ∃ cfg, processDataForChart
        ⟨["region", "sales"], [["N", "10"], ["N", "20"], ["S", "5"]]⟩
        ⟨"bar", ⟨"region", "Region"⟩, ⟨"sales", "sum", "S"⟩, 2⟩ "c" "t" =
      ProcOutcome.ok cfg ∧
      ∃ sorted : List (String × NF),
        sorted.Perm (aggGroups
          ⟨["region", "sales"], [["N", "10"], ["N", "20"], ["S", "5"]]⟩
          ⟨"bar", ⟨"region", "Region"⟩, ⟨"sales", "sum", "S"⟩, 2⟩) ∧
        List.Pairwise (fun a b => nfGt b.2 a.2 = false) sorted ∧
        (∀ v : NF, sorted.filter (fun g => decide (g.2 = v)) =
          (aggGroups ⟨["region", "sales"], [["N", "10"], ["N", "20"], ["S", "5"]]⟩
            ⟨"bar", ⟨"region", "Region"⟩, ⟨"sales", "sum", "S"⟩, 2⟩).filter
            (fun g => decide (g.2 = v))) ∧
        cfg.data.labels = (sorted.take (2 : Int).toNat).map Prod.fst ∧
        cfg.data.datasets = [⟨"S",
          (sorted.take (2 : Int).toNat).map (fun g => Cell.num g.2),
          bgColor, bdColor, 1⟩] ∧
        ((aggGroups ⟨["region", "sales"], [["N", "10"], ["N", "20"], ["S", "5"]]⟩
            ⟨"bar", ⟨"region", "Region"⟩, ⟨"sales", "sum", "S"⟩, 2⟩).length ≤
          (2 : Int).toNat →
          cfg.data.labels = sorted.map Prod.fst) :=
  c7_stable_sort_truncate
    ⟨["region", "sales"], [["N", "10"], ["N", "20"], ["S", "5"]]⟩
    ⟨"bar", ⟨"region", "Region"⟩, ⟨"sales", "sum", "S"⟩, 2⟩ "c" "t"
    (by decide) (by decide) (by decide)

lemma aggregate_of_unknown_tag (tag : String) (h1 : tag ≠ "avg") (h2 : tag ≠ "count")
    (vals : List NF) : aggregate tag vals = aggregate "sum" vals := by
  have hsum : aggregate "sum" vals = nfSum vals := by
    unfold aggregate
    rw [if_pos (show ("sum" == "sum") = true from rfl)]
  rw [hsum]
  unfold aggregate
  by_cases hs : (tag == "sum") = true
  · rw [if_pos hs]
  · have ha : (tag == "avg") = false := by simpa using h1
    have hc : (tag == "count") = false := by simpa using h2
    rw [if_neg hs, if_neg (by simp [ha]), if_neg (by simp [hc])]

/-- C10 (amended): an aggregation tag other than `avg` and `count`
falls through to the `sum` branch, so the engine aggregates by sum;
the whole output coincides with tag `"sum"` whenever the
column-selection heuristic is unaffected by the tag (the x-column
starts with the y-column, or ends with the unknown tag exactly when
it ends with `"sum"`) — when the heuristic is affected the outputs
can differ, see the counterexample. -/
theorem c10_unknown_tag_behaves_as_sum (t : Table) (p : ChartPlan) (cid ttl : String)
    (h1 : p.y.aggregation ≠ "avg") (h2 : p.y.aggregation ≠ "count")
    (h3 : strStarts p.x.column p.y.column = true ∨
      strEnds p.x.column p.y.aggregation = strEnds p.x.column "sum") :
    processDataForChart t p cid ttl =
      processDataForChart t ⟨p.type, p.x, ⟨p.y.column, "sum", p.y.label⟩, p.top_k⟩
        cid ttl := by
  have hagg : aggGroups t p =
      aggGroups t ⟨p.type, p.x, ⟨p.y.column, "sum", p.y.label⟩, p.top_k⟩ := by
    unfold aggGroups
    simp only [aggregate_of_unknown_tag p.y.aggregation h1 h2]
    rfl
  have hidx : finalYColIdx p =
      finalYColIdx ⟨p.type, p.x, ⟨p.y.column, "sum", p.y.label⟩, p.top_k⟩ := by
    unfold finalYColIdx
    rcases h3 with h3 | h3
    · rw [if_pos (by simp [h3]), if_pos (by simp [h3])]
    · have hcond : (strStarts p.x.column p.y.column ||
          strEnds p.x.column p.y.aggregation) =
          (strStarts p.x.column p.y.column || strEnds p.x.column "sum") := by
        rw [h3]
      rw [hcond]
      by_cases hc : (strStarts p.x.column p.y.column ||
          strEnds p.x.column "sum") = true
      · rw [if_pos hc, if_pos hc]
      · rw [if_neg hc, if_neg hc, ite_self, ite_self]
  unfold processDataForChart
  rw [hagg, hidx]

/-- C10 counterexample: with x-column `regionsum`, the unknown tag
`"median"` does not behave like `"sum"`: under `"sum"` the heuristic
matches `"regionsum"` by its `sum` suffix and sorts/outputs the key
strings, while under `"median"` it selects the aggregated column —
the two outputs differ. -/
theorem c10_unknown_tag_counterexample :
    processDataForChart ⟨["regionsum", "sales"], [["A", "1"], ["B", "2"]]⟩
        ⟨"bar", ⟨"regionsum", "X"⟩, ⟨"sales", "median", "Y"⟩, 2⟩ "c" "t" ≠
      processDataForChart ⟨["regionsum", "sales"], [["A", "1"], ["B", "2"]]⟩
        ⟨"bar", ⟨"regionsum", "X"⟩, ⟨"sales", "sum", "Y"⟩, 2⟩ "c" "t" := by
  decide

/-- Witness for `c10_unknown_tag_behaves_as_sum` at a concrete
input. -/
theorem c10_unknown_tag_witness :
    processDataForChart ⟨["region", "sales"], [["A", "1"]]⟩
        ⟨"bar", ⟨"region", "X"⟩, ⟨"sales", "median", "Y"⟩, 2⟩ "c" "t" =
      processDataForChart ⟨["region", "sales"], [["A", "1"]]⟩
        ⟨"bar", ⟨"region", "X"⟩, ⟨"sales", "sum", "Y"⟩, 2⟩ "c" "t" :=
  c10_unknown_tag_behaves_as_sum ⟨["region", "sales"], [["A", "1"]]⟩
    ⟨"bar", ⟨"region", "X"⟩, ⟨"sales", "median", "Y"⟩, 2⟩ "c" "t"
    (by decide) (by decide) (Or.inr (by decide))

end DataGeany
